import Mathlib

/-!
Verification development for the procedural asteroid generation pipeline of the
SPAAAAAAAACE repository (`AsteroidActor.cpp`): icosphere construction and
subdivision with midpoint welding, multi-layer radial noise displacement with
clamping, radius/volume/mass statistics, and the generation orchestrator.

Floating-point values of the source are modelled as exact real numbers; the
engine's 32-bit `FRandomStream` is modelled over `Nat`/`Int`/`Rat` with explicit
`% 2^32` wrap-around.  Engine collaborators that are external to the repository
(`FMath::PerlinNoise3D`, the global unseeded random generator) are abstracted as
explicit parameters of the orchestrator.
-/

open Classical

/-! ## Engine pseudo-random stream (modelled)

Modelled from the engine's `FRandomStream` (external to the repository, used by
`GenerateAsteroid` and `ApplyNoiseLayers`): a 32-bit linear congruential
generator.  `MutateSeed` performs `Seed = Seed * 196314165 + 907633515` on the
32-bit state, and `FRand` returns 23 mantissa bits of the mutated state divided
by `2^23`, a fraction in `[0, 1)`.  The exact constants are irrelevant to every
claim below (only determinism of the stream matters). -/

def UINT32_MOD : ℕ := 4294967296

def INT32_MAX : ℤ := 2147483647

/-- Modelled from the engine: `FRandomStream(int32 InSeed)` stores the seed as
its 32-bit state (interpreted unsigned). -/
def streamInit (seed : ℤ) : ℕ := (seed % (UINT32_MOD : ℤ)).toNat

/-- Modelled from the engine: `FRandomStream::MutateSeed`. -/
def mutateSeed (st : ℕ) : ℕ := (st * 196314165 + 907633515) % UINT32_MOD

/-- Modelled from the engine: the fraction in `[0,1)` extracted from the state
by `FRand` (23 mantissa bits over `2^23`). -/
def frandQ (st : ℕ) : ℚ := ((st % 8388608 : ℕ) : ℚ) / 8388608

/-- Modelled from the engine: `FRandomStream::FRand` mutates the seed and
returns the extracted fraction, together with the new state. -/
def frandStep (st : ℕ) : ℚ × ℕ :=
  (frandQ (mutateSeed st), mutateSeed st)

/-- Reinterpret an integer as a signed 32-bit value (two's-complement wrap). -/
def toInt32 (n : ℤ) : ℤ := (n + 2147483648) % (UINT32_MOD : ℤ) - 2147483648

/-- Modelled from the engine: `FRandomStream::RandRange(int32 Min, int32 Max)`,
which computes `Range = (Max - Min) + 1` in 32-bit signed arithmetic and
returns `Min + RandHelper(Range)`; `RandHelper(A)` draws
`Min(TruncToInt(FRand() * A), A - 1)` when `A > 0` and `0` otherwise (without
advancing the stream). -/
def randRangeInt (st : ℕ) (lo hi : ℤ) : ℤ × ℕ :=
  let range := toInt32 (hi - lo + 1)
  if 0 < range then
    let p := frandStep st
    (lo + min ⌊p.1 * (range : ℚ)⌋ (range - 1), p.2)
  else
    (lo, st)

/-! ## Vectors

`FVector` models the engine's 3-component vector with exact real coordinates. -/

structure FVector where
  x : ℝ
  y : ℝ
  z : ℝ

namespace FVector

@[ext]
theorem ext_xyz {a b : FVector} (hx : a.x = b.x) (hy : a.y = b.y) (hz : a.z = b.z) : a = b := by
  cases a
  cases b
  simp_all

instance : Add FVector := ⟨fun a b => ⟨a.x + b.x, a.y + b.y, a.z + b.z⟩⟩

instance : SMul ℝ FVector := ⟨fun r v => ⟨r * v.x, r * v.y, r * v.z⟩⟩

instance : Zero FVector := ⟨⟨0, 0, 0⟩⟩

@[simp] theorem add_x (a b : FVector) : (a + b).x = a.x + b.x := rfl

@[simp] theorem add_y (a b : FVector) : (a + b).y = a.y + b.y := rfl

@[simp] theorem add_z (a b : FVector) : (a + b).z = a.z + b.z := rfl

@[simp] theorem smul_x (r : ℝ) (v : FVector) : (r • v).x = r * v.x := rfl

@[simp] theorem smul_y (r : ℝ) (v : FVector) : (r • v).y = r * v.y := rfl

@[simp] theorem smul_z (r : ℝ) (v : FVector) : (r • v).z = r * v.z := rfl

@[simp] theorem zero_x : (0 : FVector).x = 0 := rfl

@[simp] theorem zero_y : (0 : FVector).y = 0 := rfl

@[simp] theorem zero_z : (0 : FVector).z = 0 := rfl

/-- `FVector::DotProduct`. -/
def dot (a b : FVector) : ℝ := a.x * b.x + a.y * b.y + a.z * b.z

/-- Squared magnitude (`SizeSquared` / the `SquareSum` of `Normalize`). -/
def normSq (v : FVector) : ℝ := dot v v

/-- Magnitude (`Size`). -/
noncomputable def norm (v : FVector) : ℝ := Real.sqrt (normSq v)

/-- The engine's `SMALL_NUMBER` tolerance used by `FVector::Normalize`. -/
def SMALL_NUMBER : ℝ := 1e-8

/-- `FVector::Normalize()`: scales the vector to unit length when its squared
magnitude exceeds the tolerance `SMALL_NUMBER`, and otherwise leaves it
unchanged (returning `false` in the engine). -/
noncomputable def normalize (v : FVector) : FVector :=
  if SMALL_NUMBER < normSq v then (Real.sqrt (normSq v))⁻¹ • v else v

/-- `FVector::CrossProduct` (used for face normals in `CreateMeshFromData`). -/
def cross (a b : FVector) : FVector :=
  ⟨a.y * b.z - a.z * b.y, a.z * b.x - a.x * b.z, a.x * b.y - a.y * b.x⟩

/-- `FVector::GetSafeNormal()`: like `Normalize` but returns the zero vector
when the squared magnitude is at or below the tolerance. -/
noncomputable def getSafeNormal (v : FVector) : FVector :=
  if SMALL_NUMBER < normSq v then (Real.sqrt (normSq v))⁻¹ • v else 0

end FVector

/-- `FMath::Clamp(X, Min, Max)` as implemented by the engine:
`X < Min ? Min : (X < Max ? X : Max)`. -/
noncomputable def clampR (x lo hi : ℝ) : ℝ :=
  if x < lo then lo else if x < hi then x else hi

/-! ## Configuration records (from `AsteroidActor.h`, via their use in
`AsteroidActor.cpp`) -/

/-- A noise layer configuration record: `{Scale, Intensity, Seed}`; a negative
seed means "derive from the global seed stream". -/
structure FNoiseLayer where
  scale : ℝ
  intensity : ℝ
  seed : ℤ

/-- The statistics record stored by `CalculateStats` and broadcast on
completion: `{Radius, Volume, Mass, NoiseLayerSeeds}`. -/
structure FAsteroidStats where
  radius : ℝ
  volume : ℝ
  mass : ℝ
  noiseLayerSeeds : List ℤ

/-- The generation configuration of `AAsteroidActor` (UPROPERTY fields read by
`GenerateAsteroid`): subdivision level, radius range, density, global seed,
noise layers, displacement clamp, physics flag. -/
structure FGenerationConfig where
  subdivisions : ℕ
  minRadius : ℝ
  maxRadius : ℝ
  density : ℝ
  globalSeed : ℤ
  noiseLayers : List FNoiseLayer
  maxDisplacementFraction : ℝ
  enablePhysics : Bool

/-- The nondeterministic engine inputs consumed by one `GenerateAsteroid` call:
`FMath::Rand()` for an unset global seed, the global generator's `FRand`
fraction behind `FMath::RandRange(MinRadius, MaxRadius)`, and the per-layer
`FMath::Rand()` fallback of `ApplyNoiseLayers` (dead in practice).  Two
independent runs of the program correspond to two different values of this
oracle. -/
structure EngineOracle where
  randSeed : ℤ
  radiusFrand : ℝ
  layerFallback : ℕ → ℤ

/-! ## Icosphere builder (`BuildBaseIcosphere`, `SubdivideIcosphere`,
`GetMiddlePoint`, `NormalizeVertices` from `AsteroidActor.cpp`) -/

/-- The golden-ratio constant `t = (1 + sqrt(5)) / 2` of `BuildBaseIcosphere`. -/
noncomputable def icoT : ℝ := (1 + Real.sqrt 5) / 2

/-- The 12 icosahedron vertices added by `BuildBaseIcosphere`, in source
order. -/
noncomputable def baseVertices : List FVector :=
  [⟨-1, icoT, 0⟩, ⟨1, icoT, 0⟩, ⟨-1, -icoT, 0⟩, ⟨1, -icoT, 0⟩,
   ⟨0, -1, icoT⟩, ⟨0, 1, icoT⟩, ⟨0, -1, -icoT⟩, ⟨0, 1, -icoT⟩,
   ⟨icoT, 0, -1⟩, ⟨icoT, 0, 1⟩, ⟨-icoT, 0, -1⟩, ⟨-icoT, 0, 1⟩]

/-- The flat `faceIndices` list of the 20 icosahedron faces. -/
def baseTriangles : List ℕ :=
  [0,11,5, 0,5,1, 0,1,7, 0,7,10, 0,10,11,
   1,5,9, 5,11,4, 11,10,2, 10,7,6, 7,1,8,
   3,9,4, 3,4,2, 3,2,6, 3,6,8, 3,8,9,
   4,9,5, 2,4,11, 6,2,10, 8,6,7, 9,8,1]

/-- `AAsteroidActor::NormalizeVertices`: normalize every vertex in place. -/
noncomputable def NormalizeVertices (vs : List FVector) : List FVector :=
  vs.map FVector.normalize

/-- The edge key of `GetMiddlePoint` / `SubdivideIcosphere`:
`((int64)min << 32) | (uint32)max`, canonicalized so that the order of the two
endpoint indices does not matter. -/
def makeKey (a b : ℕ) : ℕ := min a b * 4294967296 + max a b

/-- `AAsteroidActor::GetMiddlePoint`: return the cached midpoint index of the
edge `(p1, p2)` if present; otherwise append `normalize((V[p1]+V[p2])*0.5)` to
the vertex buffer, cache its index under the canonical key, and return it.
The result is `(index, vertex buffer, cache)`. -/
noncomputable def GetMiddlePoint (p1 p2 : ℕ) (verts : List FVector)
    (cache : List (ℕ × ℕ)) : ℕ × List FVector × List (ℕ × ℕ) :=
  match (List.lookup (makeKey p1 p2) cache : Option ℕ) with
  | some i => (i, verts, cache)
  | none =>
      (verts.length,
       verts ++ [FVector.normalize ((0.5 : ℝ) • (verts.getD p1 0 + verts.getD p2 0))],
       (makeKey p1 p2, verts.length) :: cache)

/-- The loop body of `SubdivideIcosphere`: walk the flat triangle list three
indices at a time, compute the three welded edge midpoints through the shared
cache, and emit the four child triangles of each triangle.  Result:
`(vertex buffer, cache, new triangle list)`. -/
noncomputable def subdivTris :
    List ℕ → List FVector → List (ℕ × ℕ) → List FVector × List (ℕ × ℕ) × List ℕ
  | v1 :: v2 :: v3 :: rest, verts, cache =>
      let ra := GetMiddlePoint v1 v2 verts cache
      let rb := GetMiddlePoint v2 v3 ra.2.1 ra.2.2
      let rc := GetMiddlePoint v3 v1 rb.2.1 rb.2.2
      let rr := subdivTris rest rc.2.1 rc.2.2
      (rr.1, rr.2.1,
       v1 :: ra.1 :: rc.1 :: v2 :: rb.1 :: ra.1 :: v3 :: rc.1 :: rb.1 ::
         ra.1 :: rb.1 :: rc.1 :: rr.2.2)
  | _, verts, cache => (verts, cache, [])

/-- `AAsteroidActor::SubdivideIcosphere`: one subdivision pass with a fresh
(pass-scoped) midpoint cache. -/
noncomputable def SubdivideIcosphere (verts : List FVector) (tris : List ℕ) :
    List FVector × List ℕ :=
  let r := subdivTris tris verts []
  (r.1, r.2.2)

/-- The subdivision loop of `BuildBaseIcosphere`
(`for i in [0, SubdivisionsLevel): SubdivideIcosphere`). -/
noncomputable def buildLoop : ℕ → List FVector → List ℕ → List FVector × List ℕ
  | 0, verts, tris => (verts, tris)
  | n + 1, verts, tris =>
      let p := SubdivideIcosphere verts tris
      buildLoop n p.1 p.2

/-- `AAsteroidActor::BuildBaseIcosphere`: emit the icosahedron, normalize,
subdivide `SubdivisionsLevel` times, and normalize again. -/
noncomputable def BuildBaseIcosphere (subdivisionsLevel : ℕ) :
    List FVector × List ℕ :=
  let p := buildLoop subdivisionsLevel (NormalizeVertices baseVertices) baseTriangles
  (NormalizeVertices p.1, p.2)

/-! ## Noise displacement engine (`ApplyNoiseLayers`) -/

/-- The per-layer noise-sample offsets: three sequential `FRand()` draws from a
fresh `FRandomStream(seed)`, each scaled by `1000`. -/
noncomputable def layerOffsets (seed : ℤ) : ℝ × ℝ × ℝ :=
  let p1 := frandStep (streamInit seed)
  let p2 := frandStep p1.2
  let p3 := frandStep p2.2
  ((p1.1 : ℝ) * 1000, (p2.1 : ℝ) * 1000, (p3.1 : ℝ) * 1000)

/-- The scalar radial displacement computed by the inner loop of
`ApplyNoiseLayers` for one vertex: sample the noise field at three
axis-decorrelated points around `V * Scale + (ox,oy,oz)`, scale by
`Intensity * 0.5`, project onto the vertex's unit normal, and clamp to
`[-maxDisplacement, +maxDisplacement]`. -/
noncomputable def LayerDisplacement (noise : FVector → ℝ) (layer : FNoiseLayer)
    (ox oy oz maxDisplacement : ℝ) (v : FVector) : ℝ :=
  let samplePoint := layer.scale • v + ⟨ox, oy, oz⟩
  let nx := noise (samplePoint + ⟨0, 0, 0⟩)
  let ny := noise (samplePoint + ⟨13.13, 37.37, 7.73⟩)
  let nz := noise (samplePoint + ⟨97.97, 21.21, 55.55⟩)
  let offset := (layer.intensity * 0.5) • (⟨nx, ny, nz⟩ : FVector)
  clampR (FVector.dot offset (FVector.normalize v)) (-maxDisplacement) maxDisplacement

/-- The per-vertex update of `ApplyNoiseLayers`:
`V = V + normal * displacement` with `normal = V.Normalize()`. -/
noncomputable def ApplyLayerVertex (noise : FVector → ℝ) (layer : FNoiseLayer)
    (ox oy oz maxDisplacement : ℝ) (v : FVector) : FVector :=
  v + LayerDisplacement noise layer ox oy oz maxDisplacement v • FVector.normalize v

/-- The layer seed actually used by `ApplyNoiseLayers` at layer index `i`:
`LayerSeeds[i]` when the index is valid, otherwise the `FMath::Rand()`
fallback (dead in practice because the orchestrator passes one seed per
layer). -/
def headSeed (seeds : List ℤ) (fallback : ℤ) : ℤ :=
  match seeds with
  | s :: _ => s
  | [] => fallback

/-- The outer loop of `ApplyNoiseLayers` from layer index `i` on: seed a fresh
stream for the layer, draw the three sample offsets, and update every vertex of
the buffer; the remaining per-layer seeds are consumed in lockstep with the
layers. -/
noncomputable def ApplyLayersFrom (noise : FVector → ℝ)
    (maxDisplacement : ℝ) (fallback : ℕ → ℤ) :
    List FNoiseLayer → List ℤ → ℕ → List FVector → List FVector
  | [], _, _, verts => verts
  | layer :: rest, seeds, i, verts =>
      let off := layerOffsets (headSeed seeds (fallback i))
      ApplyLayersFrom noise maxDisplacement fallback rest seeds.tail (i + 1)
        (verts.map (ApplyLayerVertex noise layer off.1 off.2.1 off.2.2 maxDisplacement))

/-- `AAsteroidActor::ApplyNoiseLayers` (the `Vertices.Num() == 0` early return
coincides with mapping over the empty list). -/
noncomputable def ApplyNoiseLayers (noise : FVector → ℝ)
    (layers : List FNoiseLayer) (verts : List FVector) (layerSeeds : List ℤ)
    (maxDisplacementFrac : ℝ) (fallback : ℕ → ℤ) : List FVector :=
  ApplyLayersFrom noise maxDisplacementFrac fallback layers layerSeeds 0 verts

/-- The cumulative effect of the layer loop on one vertex (pointwise view of
`ApplyLayersFrom`, which updates each vertex independently). -/
noncomputable def ApplyVertexFold (noise : FVector → ℝ)
    (maxDisplacement : ℝ) (fallback : ℕ → ℤ) :
    List FNoiseLayer → List ℤ → ℕ → FVector → FVector
  | [], _, _, v => v
  | layer :: rest, seeds, i, v =>
      let off := layerOffsets (headSeed seeds (fallback i))
      ApplyVertexFold noise maxDisplacement fallback rest seeds.tail (i + 1)
        (ApplyLayerVertex noise layer off.1 off.2.1 off.2.2 maxDisplacement v)

/-! ## Mesh-data preparation (`CreateMeshFromData`) -/

instance : Sub FVector := ⟨fun a b => ⟨a.x - b.x, a.y - b.y, a.z - b.z⟩⟩

@[simp] theorem FVector.sub_x (a b : FVector) : (a - b).x = a.x - b.x := rfl

@[simp] theorem FVector.sub_y (a b : FVector) : (a - b).y = a.y - b.y := rfl

@[simp] theorem FVector.sub_z (a b : FVector) : (a - b).z = a.z - b.z := rfl

/-- The accumulation loop of `CreateMeshFromData`: for every complete triangle
triple with valid indices, add the face normal
`cross(v1 - v0, v2 - v0).GetSafeNormal()` into the three per-vertex normal
accumulators. -/
noncomputable def accumNormals (verts : List FVector) :
    List ℕ → List FVector → List FVector
  | i0 :: i1 :: i2 :: rest, normals =>
      if i0 < verts.length ∧ i1 < verts.length ∧ i2 < verts.length then
        let v0 := verts.getD i0 0
        let v1 := verts.getD i1 0
        let v2 := verts.getD i2 0
        let fn := FVector.getSafeNormal (FVector.cross (v1 - v0) (v2 - v0))
        let n0 := normals.set i0 (normals.getD i0 0 + fn)
        let n1 := n0.set i1 (n0.getD i1 0 + fn)
        let n2 := n1.set i2 (n1.getD i2 0 + fn)
        accumNormals verts rest n2
      else
        accumNormals verts rest normals
  | _, normals => normals

/-- The per-vertex normals computed by `CreateMeshFromData`: zero-initialized
accumulators, area-weighted face-normal accumulation, then `Normalize` each. -/
noncomputable def ComputeNormals (verts : List FVector) (tris : List ℕ) :
    List FVector :=
  (accumNormals verts tris (List.replicate verts.length 0)).map FVector.normalize

/-! ## Statistics (`CalculateStats`, `CalculateVolumeFromRadius`) -/

/-- `AAsteroidActor::CalculateVolumeFromRadius`: volume of a sphere,
`(4/3) * PI * R^3`. -/
noncomputable def CalculateVolumeFromRadius (radius : ℝ) : ℝ :=
  4 / 3 * Real.pi * radius * radius * radius

/-- `AAsteroidActor::CalculateStats`: store the chosen radius, the sphere
volume, and `mass = volume * density`; the seed list is emptied here and
filled by the caller afterwards. -/
noncomputable def CalculateStats (chosenRadius density : ℝ) : FAsteroidStats :=
  { radius := chosenRadius
    volume := CalculateVolumeFromRadius chosenRadius
    mass := CalculateVolumeFromRadius chosenRadius * density
    noiseLayerSeeds := [] }

/-! ## Orchestrator (`GenerateAsteroid`) -/

/-- The global seed actually used: the configured seed when non-negative,
otherwise a fresh `FMath::Rand()` draw from the engine oracle. -/
def ResolvedGlobalSeed (cfg : FGenerationConfig) (o : EngineOracle) : ℤ :=
  if cfg.globalSeed < 0 then o.randSeed else cfg.globalSeed

/-- The per-layer seed resolution loop of `GenerateAsteroid`: a configured
non-negative layer seed is used unchanged; a negative one is replaced by
`GlobalRand.RandRange(0, INT32_MAX)` drawn from the stream seeded with the
resolved global seed. -/
def ResolveLayerSeeds : List FNoiseLayer → ℕ → List ℤ
  | [], _ => []
  | layer :: rest, st =>
      if layer.seed < 0 then
        let p := randRangeInt st 0 INT32_MAX
        p.1 :: ResolveLayerSeeds rest p.2
      else
        layer.seed :: ResolveLayerSeeds rest st

/-- The per-layer seeds recorded by `GenerateAsteroid`. -/
def LayerSeedsOf (cfg : FGenerationConfig) (o : EngineOracle) : List ℤ :=
  ResolveLayerSeeds cfg.noiseLayers (streamInit (ResolvedGlobalSeed cfg o))

/-- `FMath::RandRange(MinRadius, MaxRadius)`: `Min + (Max - Min) * FRand()`
on the engine's global unseeded generator, whose fraction draw is the
`radiusFrand` component of the oracle. -/
def ChosenRadius (cfg : FGenerationConfig) (o : EngineOracle) : ℝ :=
  cfg.minRadius + (cfg.maxRadius - cfg.minRadius) * o.radiusFrand

/-- The vertex buffer after `BuildBaseIcosphere` and `ApplyNoiseLayers`. -/
noncomputable def NoisedVertices (cfg : FGenerationConfig) (o : EngineOracle)
    (noise : FVector → ℝ) : List FVector :=
  ApplyNoiseLayers noise cfg.noiseLayers (BuildBaseIcosphere cfg.subdivisions).1
    (LayerSeedsOf cfg o) cfg.maxDisplacementFraction o.layerFallback

/-- The final vertex buffer handed to mesh and collision upload: the noised
vertices re-normalized by `NormalizeVertices` and scaled by the chosen
radius (`V *= ChosenRadius`). -/
noncomputable def FinalVertices (cfg : FGenerationConfig) (o : EngineOracle)
    (noise : FVector → ℝ) : List FVector :=
  (NormalizeVertices (NoisedVertices cfg o noise)).map
    (fun v => ChosenRadius cfg o • v)

/-- The statistics stored on the actor when generation completes:
`CalculateStats(ChosenRadius)` followed by
`AsteroidStats.NoiseLayerSeeds = LayerSeeds`. -/
noncomputable def FinalStats (cfg : FGenerationConfig) (o : EngineOracle) :
    FAsteroidStats :=
  { CalculateStats (ChosenRadius cfg o) cfg.density with
    noiseLayerSeeds := LayerSeedsOf cfg o }

/-- The calls `GenerateAsteroid` makes on its external collaborators (the
procedural-mesh component, the physics interface, and the generation-complete
delegate), in program order. -/
inductive EngineEvent where
  | createMeshSection (verts : List FVector) (tris : List ℕ)
      (normals : List FVector) (createCollision : Bool)
  | clearCollisionConvexMeshes
  | addCollisionConvexMesh (verts : List FVector)
  | setCollisionEnabled
  | setSimulatePhysics (enabled : Bool)
  | setMassOverrideInKg (mass : ℝ)
  | broadcast (stats : FAsteroidStats)

/-- The observable outcome of one `GenerateAsteroid` call. -/
structure GenOutput where
  vertices : List FVector
  triangles : List ℕ
  stats : FAsteroidStats
  events : List EngineEvent

/-- `AAsteroidActor::GenerateAsteroid`: resolve the global seed and the
per-layer seeds, build the base icosphere, apply the noise layers, re-normalize,
draw the radius, scale, upload the mesh and the convex collision hull, compute
and record the statistics, optionally enable physics with the computed mass,
and broadcast the completed statistics once. -/
noncomputable def GenerateAsteroid (cfg : FGenerationConfig) (o : EngineOracle)
    (noise : FVector → ℝ) : GenOutput :=
  { vertices := FinalVertices cfg o noise
    triangles := (BuildBaseIcosphere cfg.subdivisions).2
    stats := FinalStats cfg o
    events :=
      [EngineEvent.createMeshSection (FinalVertices cfg o noise)
         (BuildBaseIcosphere cfg.subdivisions).2
         (ComputeNormals (FinalVertices cfg o noise)
           (BuildBaseIcosphere cfg.subdivisions).2) false,
       EngineEvent.clearCollisionConvexMeshes,
       EngineEvent.addCollisionConvexMesh (FinalVertices cfg o noise),
       EngineEvent.setCollisionEnabled]
      ++ (if cfg.enablePhysics then
            [EngineEvent.setSimulatePhysics true,
             EngineEvent.setMassOverrideInKg (FinalStats cfg o).mass]
          else [])
      ++ [EngineEvent.broadcast (FinalStats cfg o)] }

/-- Recognizer for the generation-complete broadcast among the engine calls. -/
def isBroadcast : EngineEvent → Bool
  | EngineEvent.broadcast _ => true
  | _ => false

/-- The sample offsets of the single noise layer (seed `7`) of the
configuration used to analyse the accumulated-displacement edge case of the
final-magnitude property. -/
noncomputable def c6Off : ℝ × ℝ × ℝ := layerOffsets 7

/-- The common noise-sample base point of that configuration: its layer has
`Scale = 0`, so every vertex samples the noise field at the same three points
around this one. -/
noncomputable def c6Pt : FVector := ⟨c6Off.1, c6Off.2.1, c6Off.2.2⟩

/-- The magnitude `sqrt((5 + sqrt 5)/2)` of every raw icosahedron vertex. -/
noncomputable def c6S : ℝ := Real.sqrt ((5 + Real.sqrt 5) / 2)

/-- A coherent-noise field (modelled from the spec: the noise collaborator is
any deterministic function of position) that returns `2 * c6S` at the base
sample point and `0` elsewhere. -/
noncomputable def c6Noise : FVector → ℝ := fun p => if p = c6Pt then 2 * c6S else 0

/-- A generation configuration whose single noise layer cancels the first
icosahedron vertex exactly: subdivision 0, radius fixed at 100, density 1,
global seed 3, one layer `{Scale = 0, Intensity = 1, Seed = 7}`, displacement
clamp 1, physics off. -/
noncomputable def c6Cfg : FGenerationConfig := ⟨0, 100, 100, 1, 3, [⟨0, 1, 7⟩], 1, false⟩

/-- A concrete engine oracle (its values are irrelevant: the configuration
fixes every seed and the radius range is degenerate). -/
def c6Oracle : EngineOracle := ⟨0, 0, fun _ => 0⟩

/-! ## Helper lemmas -/

theorem smul_smul_vec (a b : ℝ) (v : FVector) : a • b • v = (a * b) • v := by
  ext <;> simp <;> ring

theorem one_smul_vec (v : FVector) : (1 : ℝ) • v = v := by
  ext <;> simp

theorem smul_add_smul_vec (a b : ℝ) (v : FVector) : a • v + b • v = (a + b) • v := by
  ext <;> simp <;> ring

theorem normSq_smul (r : ℝ) (v : FVector) :
    FVector.normSq (r • v) = r ^ 2 * FVector.normSq v := by
  simp [FVector.normSq, FVector.dot]
  ring

theorem normSq_nonneg (v : FVector) : 0 ≤ FVector.normSq v := by
  have hx := mul_self_nonneg v.x
  have hy := mul_self_nonneg v.y
  have hz := mul_self_nonneg v.z
  simp only [FVector.normSq, FVector.dot]
  linarith

theorem normalize_of_unit {v : FVector} (h : FVector.normSq v = 1) :
    FVector.normalize v = v := by
  unfold FVector.normalize
  rw [h, if_pos (by norm_num [FVector.SMALL_NUMBER])]
  rw [Real.sqrt_one, inv_one, one_smul_vec]

theorem normSq_normalize {v : FVector} (h : FVector.SMALL_NUMBER < FVector.normSq v) :
    FVector.normSq (FVector.normalize v) = 1 := by
  have hpos : 0 < FVector.normSq v := by
    have : (0 : ℝ) < FVector.SMALL_NUMBER := by norm_num [FVector.SMALL_NUMBER]
    linarith
  unfold FVector.normalize
  rw [if_pos h, normSq_smul, inv_pow, Real.sq_sqrt hpos.le]
  field_simp

theorem norm_normalize {v : FVector} (h : FVector.SMALL_NUMBER < FVector.normSq v) :
    FVector.norm (FVector.normalize v) = 1 := by
  unfold FVector.norm
  rw [normSq_normalize h, Real.sqrt_one]

theorem norm_smul_vec (r : ℝ) (v : FVector) :
    FVector.norm (r • v) = |r| * FVector.norm v := by
  unfold FVector.norm
  rw [normSq_smul, Real.sqrt_mul (sq_nonneg r), Real.sqrt_sq_eq_abs]

theorem normalize_smul_unit {u : FVector} {c : ℝ} (hu : FVector.normSq u = 1)
    (hc : (1e-4 : ℝ) < c) : FVector.normalize (c • u) = u := by
  have hc0 : (0 : ℝ) < c := by norm_num at hc ⊢; linarith
  have h1 : FVector.normSq (c • u) = c ^ 2 := by rw [normSq_smul, hu, mul_one]
  unfold FVector.normalize
  rw [h1, if_pos (by norm_num [FVector.SMALL_NUMBER] at hc ⊢; nlinarith),
    Real.sqrt_sq hc0.le, smul_smul_vec, inv_mul_cancel₀ hc0.ne', one_smul_vec]

theorem abs_clampR_le (x m : ℝ) (hm : 0 ≤ m) : |clampR x (-m) m| ≤ m := by
  unfold clampR
  split_ifs with h1 h2 <;> rw [abs_le] <;> constructor <;> linarith

/-! ## C7: volume and mass statistics -/

/-- C7: for every generated asteroid the stored statistics satisfy
`volume = (4/3) * pi * radius^3` and `mass = volume * density` exactly (the
volume is that of a perfect sphere of the resolved radius, independent of the
displaced shape). -/
theorem C7_volume_mass (cfg : FGenerationConfig) (o : EngineOracle)
    (noise : FVector → ℝ) :
    (GenerateAsteroid cfg o noise).stats.volume
        = 4 / 3 * Real.pi * (GenerateAsteroid cfg o noise).stats.radius ^ 3
      ∧ (GenerateAsteroid cfg o noise).stats.mass
        = (GenerateAsteroid cfg o noise).stats.volume * cfg.density := by
  constructor
  · simp [GenerateAsteroid, FinalStats, CalculateStats, CalculateVolumeFromRadius]
    ring
  · simp [GenerateAsteroid, FinalStats, CalculateStats, CalculateVolumeFromRadius]

/-! ## C9: degenerate radius range -/

theorem ChosenRadius_of_min_eq_max {cfg : FGenerationConfig} (o : EngineOracle)
    (h : cfg.minRadius = cfg.maxRadius) : ChosenRadius cfg o = cfg.minRadius := by
  unfold ChosenRadius
  rw [h]
  ring

/-- C9: when `minRadius == maxRadius == R0`, the chosen radius used for
scaling and statistics is exactly `R0`, for every value of the engine's global
random draw. -/
theorem C9_degenerate_radius (cfg : FGenerationConfig) (o : EngineOracle)
    (noise : FVector → ℝ) (h : cfg.minRadius = cfg.maxRadius) :
    (GenerateAsteroid cfg o noise).stats.radius = cfg.minRadius
      ∧ ChosenRadius cfg o = cfg.minRadius := by
  refine ⟨?_, ChosenRadius_of_min_eq_max o h⟩
  simp [GenerateAsteroid, FinalStats, CalculateStats, ChosenRadius_of_min_eq_max o h]

/-- Witness for C9 at a concrete degenerate configuration (`R0 = 5`). -/
theorem C9_degenerate_radius_witness :
    (GenerateAsteroid ⟨0, 5, 5, 1, 0, [], 1, false⟩ ⟨0, 1/3, fun _ => 0⟩
        (fun _ => 0)).stats.radius = 5
      ∧ ChosenRadius ⟨0, 5, 5, 1, 0, [], 1, false⟩ ⟨0, 1/3, fun _ => 0⟩ = 5 :=
  C9_degenerate_radius ⟨0, 5, 5, 1, 0, [], 1, false⟩ ⟨0, 1/3, fun _ => 0⟩
    (fun _ => 0) rfl

/-! ## C5: displacement clamp law -/

/-- C5: for every vertex and every noise layer, the scalar radial displacement
applied by the noise engine (the clamped projection of the noise offset onto
the vertex's unit normal) never exceeds `maxDisplacementFraction` in absolute
value, and the per-vertex update adds exactly this scalar along the normal. -/
theorem C5_displacement_clamp (noise : FVector → ℝ) (layer : FNoiseLayer)
    (ox oy oz m : ℝ) (v : FVector) (hm : 0 ≤ m) :
    |LayerDisplacement noise layer ox oy oz m v| ≤ m
      ∧ ApplyLayerVertex noise layer ox oy oz m v
        = v + LayerDisplacement noise layer ox oy oz m v • FVector.normalize v := by
  refine ⟨?_, rfl⟩
  unfold LayerDisplacement
  exact abs_clampR_le _ _ hm

/-- Witness for C5 at a concrete layer, vertex and clamp bound. -/
theorem C5_displacement_clamp_witness :
    (0 : ℝ) ≤ 1
      ∧ (|LayerDisplacement (fun _ => 0) ⟨1, 1, 0⟩ 0 0 0 1 ⟨1, 0, 0⟩| ≤ 1
        ∧ ApplyLayerVertex (fun _ => 0) ⟨1, 1, 0⟩ 0 0 0 1 ⟨1, 0, 0⟩
          = ⟨1, 0, 0⟩ + LayerDisplacement (fun _ => 0) ⟨1, 1, 0⟩ 0 0 0 1 ⟨1, 0, 0⟩
              • FVector.normalize ⟨1, 0, 0⟩) :=
  ⟨by norm_num, C5_displacement_clamp (fun _ => 0) ⟨1, 1, 0⟩ 0 0 0 1 ⟨1, 0, 0⟩ (by norm_num)⟩

/-! ## C3: shared-midpoint welding -/

theorem makeKey_comm (a b : ℕ) : makeKey a b = makeKey b a := by
  unfold makeKey
  rw [min_comm, max_comm]

/-- C3: within one subdivision pass, requesting the midpoint of a fresh edge
appends exactly one vertex, `normalize((V[p1]+V[p2])*0.5)`, at index
`|V|`; requesting the same edge again with the endpoints in the opposite order
returns the same index and leaves the vertex buffer and the cache unchanged
(the cache key is canonicalized as `(min, max)`). -/
theorem C3_shared_midpoint (p1 p2 : ℕ) (verts : List FVector)
    (cache : List (ℕ × ℕ)) (h : List.lookup (makeKey p1 p2) cache = none) :
    (GetMiddlePoint p1 p2 verts cache).1 = verts.length
      ∧ (GetMiddlePoint p1 p2 verts cache).2.1
        = verts ++ [FVector.normalize ((0.5 : ℝ) • (verts.getD p1 0 + verts.getD p2 0))]
      ∧ (GetMiddlePoint p2 p1 (GetMiddlePoint p1 p2 verts cache).2.1
            (GetMiddlePoint p1 p2 verts cache).2.2).1
        = (GetMiddlePoint p1 p2 verts cache).1
      ∧ (GetMiddlePoint p2 p1 (GetMiddlePoint p1 p2 verts cache).2.1
            (GetMiddlePoint p1 p2 verts cache).2.2).2.1
        = (GetMiddlePoint p1 p2 verts cache).2.1
      ∧ (GetMiddlePoint p2 p1 (GetMiddlePoint p1 p2 verts cache).2.1
            (GetMiddlePoint p1 p2 verts cache).2.2).2.2
        = (GetMiddlePoint p1 p2 verts cache).2.2 := by
  have h1 : GetMiddlePoint p1 p2 verts cache
      = (verts.length,
         verts ++ [FVector.normalize ((0.5 : ℝ) • (verts.getD p1 0 + verts.getD p2 0))],
         (makeKey p1 p2, verts.length) :: cache) := by
    unfold GetMiddlePoint
    rw [h]
  have h2 : List.lookup (makeKey p2 p1)
      ((makeKey p1 p2, verts.length) :: cache) = some verts.length := by
    rw [makeKey_comm p2 p1]
    simp [List.lookup]
  rw [h1]
  unfold GetMiddlePoint
  rw [h2]
  exact ⟨rfl, rfl, rfl, rfl, rfl⟩

/-- Witness for C3 on a two-vertex buffer and an empty cache. -/
theorem C3_shared_midpoint_witness :
    (GetMiddlePoint 0 1 [⟨1,0,0⟩, ⟨0,1,0⟩] []).1 = 2
      ∧ (GetMiddlePoint 0 1 [⟨1,0,0⟩, ⟨0,1,0⟩] []).2.1
        = [⟨1,0,0⟩, ⟨0,1,0⟩]
            ++ [FVector.normalize ((0.5 : ℝ)
                  • (([⟨1,0,0⟩, ⟨0,1,0⟩] : List FVector).getD 0 0
                     + ([⟨1,0,0⟩, ⟨0,1,0⟩] : List FVector).getD 1 0))]
      ∧ (GetMiddlePoint 1 0 (GetMiddlePoint 0 1 [⟨1,0,0⟩, ⟨0,1,0⟩] []).2.1
            (GetMiddlePoint 0 1 [⟨1,0,0⟩, ⟨0,1,0⟩] []).2.2).1
        = (GetMiddlePoint 0 1 [⟨1,0,0⟩, ⟨0,1,0⟩] []).1
      ∧ (GetMiddlePoint 1 0 (GetMiddlePoint 0 1 [⟨1,0,0⟩, ⟨0,1,0⟩] []).2.1
            (GetMiddlePoint 0 1 [⟨1,0,0⟩, ⟨0,1,0⟩] []).2.2).2.1
        = (GetMiddlePoint 0 1 [⟨1,0,0⟩, ⟨0,1,0⟩] []).2.1
      ∧ (GetMiddlePoint 1 0 (GetMiddlePoint 0 1 [⟨1,0,0⟩, ⟨0,1,0⟩] []).2.1
            (GetMiddlePoint 0 1 [⟨1,0,0⟩, ⟨0,1,0⟩] []).2.2).2.2
        = (GetMiddlePoint 0 1 [⟨1,0,0⟩, ⟨0,1,0⟩] []).2.2 :=
  C3_shared_midpoint 0 1 [⟨1,0,0⟩, ⟨0,1,0⟩] [] rfl

/-! ## C4: triangle counts of the icosphere builder -/

theorem subdivTris_len : ∀ (t : List ℕ) (v : List FVector) (c : List (ℕ × ℕ)),
    ((subdivTris t v c).2.2).length = 4 * 3 * (t.length / 3)
  | v1 :: v2 :: v3 :: rest, v, c => by
      simp only [subdivTris, List.length_cons]
      rw [subdivTris_len rest]
      omega
  | [], _, _ => by simp [subdivTris]
  | [_], _, _ => by simp [subdivTris]
  | [_, _], _, _ => by simp [subdivTris]

theorem SubdivideIcosphere_len (verts : List FVector) (tris : List ℕ)
    (h : 3 ∣ tris.length) :
    ((SubdivideIcosphere verts tris).2).length = 4 * tris.length := by
  unfold SubdivideIcosphere
  rw [subdivTris_len]
  obtain ⟨k, hk⟩ := h
  omega

theorem buildLoop_len (n : ℕ) : ∀ (v : List FVector) (t : List ℕ), 3 ∣ t.length →
    ((buildLoop n v t).2).length = 4 ^ n * t.length := by
  induction n with
  | zero =>
      intro v t _
      simp [buildLoop]
  | succ n ih =>
      intro v t ht
      obtain ⟨k, hk⟩ := ht
      have hlen := SubdivideIcosphere_len v t ⟨k, hk⟩
      have hdvd : 3 ∣ ((SubdivideIcosphere v t).2).length := by
        rw [hlen, hk]
        exact ⟨4 * k, by ring⟩
      simp only [buildLoop]
      rw [ih _ _ hdvd, hlen]
      ring

/-- C4: for every subdivision level the flat triangle list built by
`BuildBaseIcosphere` has length `3 * 20 * 4^level` (each pass replaces every
triangle with four children), and level 0 yields the raw icosahedron with 12
vertices and 20 triangles. -/
theorem C4_triangle_counts :
    (∀ n : ℕ, ((BuildBaseIcosphere n).2).length = 3 * (20 * 4 ^ n))
      ∧ ((BuildBaseIcosphere 0).1).length = 12
      ∧ ((BuildBaseIcosphere 0).2).length = 60 := by
  have hbase : baseTriangles.length = 60 := rfl
  refine ⟨?_, ?_, ?_⟩
  · intro n
    unfold BuildBaseIcosphere
    rw [buildLoop_len n _ _ (by rw [hbase]; exact ⟨20, rfl⟩), hbase]
    ring
  · simp [BuildBaseIcosphere, buildLoop, NormalizeVertices, baseVertices]
  · simp [BuildBaseIcosphere, buildLoop, baseTriangles]

/-! ## C10: generation-complete notification -/

theorem ResolveLayerSeeds_length : ∀ (layers : List FNoiseLayer) (st : ℕ),
    (ResolveLayerSeeds layers st).length = layers.length
  | [], _ => by simp [ResolveLayerSeeds]
  | L :: rest, st => by
      unfold ResolveLayerSeeds
      split_ifs <;> simp [ResolveLayerSeeds_length rest]

/-- C10: every `GenerateAsteroid` call emits exactly one generation-complete
broadcast among its engine calls; its payload is the stored statistics object,
whose recorded seed list is the resolved per-layer seed list, one seed per
configured layer (so the notification is never fired with seeds missing). -/
theorem C10_broadcast_once (cfg : FGenerationConfig) (o : EngineOracle)
    (noise : FVector → ℝ) :
    ((GenerateAsteroid cfg o noise).events.filter isBroadcast)
        = [EngineEvent.broadcast (GenerateAsteroid cfg o noise).stats]
      ∧ (GenerateAsteroid cfg o noise).stats.noiseLayerSeeds = LayerSeedsOf cfg o
      ∧ ((GenerateAsteroid cfg o noise).stats.noiseLayerSeeds).length
        = cfg.noiseLayers.length := by
  refine ⟨?_, ?_, ?_⟩
  · cases hp : cfg.enablePhysics <;>
      simp [GenerateAsteroid, hp, isBroadcast]
  · simp [GenerateAsteroid, FinalStats]
  · simp [GenerateAsteroid, FinalStats, LayerSeedsOf, ResolveLayerSeeds_length]

/-! ## C8: per-layer seed resolution -/

theorem ResolveLayerSeeds_getD_of_nonneg :
    ∀ (layers : List FNoiseLayer) (st : ℕ) (i : ℕ), i < layers.length →
      0 ≤ (layers.getD i ⟨0, 0, 0⟩).seed →
      (ResolveLayerSeeds layers st).getD i 0 = (layers.getD i ⟨0, 0, 0⟩).seed
  | [], _, i, hi, _ => by simp at hi
  | L :: rest, st, 0, _, hs => by
      unfold ResolveLayerSeeds
      rw [if_neg (not_lt.mpr (by simpa using hs))]
      simp
  | L :: rest, st, n + 1, hi, hs => by
      unfold ResolveLayerSeeds
      split_ifs with hL <;>
        simpa using
          ResolveLayerSeeds_getD_of_nonneg rest _ n (by simpa using hi) (by simpa using hs)

/-- C8: the statistics record the per-layer seeds resolved from the stream
seeded by the (explicit) global seed; a configured non-negative layer seed is
used unchanged; and the recorded seed sequence depends only on the
configuration, not on the engine's nondeterministic draws. -/
theorem C8_seed_resolution (cfg : FGenerationConfig) (o o2 : EngineOracle)
    (noise noise2 : FVector → ℝ) (i : ℕ) (hi : i < cfg.noiseLayers.length)
    (hg : 0 ≤ cfg.globalSeed) :
    (GenerateAsteroid cfg o noise).stats.noiseLayerSeeds
        = ResolveLayerSeeds cfg.noiseLayers (streamInit cfg.globalSeed)
      ∧ (0 ≤ (cfg.noiseLayers.getD i ⟨0, 0, 0⟩).seed →
          ((GenerateAsteroid cfg o noise).stats.noiseLayerSeeds).getD i 0
            = (cfg.noiseLayers.getD i ⟨0, 0, 0⟩).seed)
      ∧ (GenerateAsteroid cfg o noise).stats.noiseLayerSeeds
        = (GenerateAsteroid cfg o2 noise2).stats.noiseLayerSeeds := by
  have hgs : ∀ oo : EngineOracle, ResolvedGlobalSeed cfg oo = cfg.globalSeed := by
    intro oo
    unfold ResolvedGlobalSeed
    rw [if_neg (not_lt.mpr hg)]
  refine ⟨?_, ?_, ?_⟩
  · simp [GenerateAsteroid, FinalStats, LayerSeedsOf, hgs]
  · intro hsd
    simp only [GenerateAsteroid, FinalStats, LayerSeedsOf]
    exact ResolveLayerSeeds_getD_of_nonneg _ _ i hi hsd
  · simp [GenerateAsteroid, FinalStats, LayerSeedsOf, hgs]

/-- Witness for C8: one explicit layer seed (`5`) and global seed `9`. -/
theorem C8_seed_resolution_witness :
    (GenerateAsteroid ⟨0, 1, 1, 1, 9, [⟨1, 1, 5⟩], 1, false⟩ ⟨0, 0, fun _ => 0⟩
          (fun _ => 0)).stats.noiseLayerSeeds
        = ResolveLayerSeeds [⟨1, 1, 5⟩] (streamInit 9)
      ∧ (0 ≤ (([⟨1, 1, 5⟩] : List FNoiseLayer).getD 0 ⟨0, 0, 0⟩).seed →
          ((GenerateAsteroid ⟨0, 1, 1, 1, 9, [⟨1, 1, 5⟩], 1, false⟩ ⟨0, 0, fun _ => 0⟩
              (fun _ => 0)).stats.noiseLayerSeeds).getD 0 0
            = (([⟨1, 1, 5⟩] : List FNoiseLayer).getD 0 ⟨0, 0, 0⟩).seed)
      ∧ (GenerateAsteroid ⟨0, 1, 1, 1, 9, [⟨1, 1, 5⟩], 1, false⟩ ⟨0, 0, fun _ => 0⟩
            (fun _ => 0)).stats.noiseLayerSeeds
        = (GenerateAsteroid ⟨0, 1, 1, 1, 9, [⟨1, 1, 5⟩], 1, false⟩ ⟨7, 1/2, fun _ => 1⟩
            (fun _ => 1)).stats.noiseLayerSeeds :=
  C8_seed_resolution ⟨0, 1, 1, 1, 9, [⟨1, 1, 5⟩], 1, false⟩ ⟨0, 0, fun _ => 0⟩
    ⟨7, 1/2, fun _ => 1⟩ (fun _ => 0) (fun _ => 1) 0 (by simp) (by norm_num)

/-! ## C1: reproducibility across independent runs -/

theorem applyLayersFrom_fallback_irrel (noise : FVector → ℝ) (m : ℝ) :
    ∀ (layers : List FNoiseLayer) (seeds : List ℤ) (i : ℕ) (verts : List FVector)
      (fb1 fb2 : ℕ → ℤ), layers.length ≤ seeds.length →
      ApplyLayersFrom noise m fb1 layers seeds i verts
        = ApplyLayersFrom noise m fb2 layers seeds i verts
  | [], _, _, _, _, _, _ => by simp [ApplyLayersFrom]
  | L :: rest, [], i, verts, fb1, fb2, h => by simp at h
  | L :: rest, s :: stail, i, verts, fb1, fb2, h => by
      simp only [ApplyLayersFrom, headSeed, List.tail_cons]
      exact applyLayersFrom_fallback_irrel noise m rest stail (i + 1) _ fb1 fb2
        (by simpa using h)

/-- C1 (amended): with an explicit non-negative global seed, explicit
non-negative per-layer seeds, and a degenerate radius range
(`minRadius == maxRadius`), two independent runs of `GenerateAsteroid` (two
arbitrary engine oracles) produce identical vertex positions, triangle lists,
statistics, and engine calls. -/
theorem C1_amended_determinism (cfg : FGenerationConfig) (o1 o2 : EngineOracle)
    (noise : FVector → ℝ) (hg : 0 ≤ cfg.globalSeed)
    (_hl : ∀ L ∈ cfg.noiseLayers, 0 ≤ L.seed)
    (hr : cfg.minRadius = cfg.maxRadius) :
    GenerateAsteroid cfg o1 noise = GenerateAsteroid cfg o2 noise := by
  have hgs : ResolvedGlobalSeed cfg o1 = ResolvedGlobalSeed cfg o2 := by
    unfold ResolvedGlobalSeed
    rw [if_neg (not_lt.mpr hg), if_neg (not_lt.mpr hg)]
  have hls : LayerSeedsOf cfg o1 = LayerSeedsOf cfg o2 := by
    unfold LayerSeedsOf
    rw [hgs]
  have hcr : ChosenRadius cfg o1 = ChosenRadius cfg o2 := by
    rw [ChosenRadius_of_min_eq_max o1 hr, ChosenRadius_of_min_eq_max o2 hr]
  have hlen : cfg.noiseLayers.length ≤ (LayerSeedsOf cfg o2).length := by
    unfold LayerSeedsOf
    rw [ResolveLayerSeeds_length]
  have hnv : NoisedVertices cfg o1 noise = NoisedVertices cfg o2 noise := by
    unfold NoisedVertices ApplyNoiseLayers
    rw [hls]
    exact applyLayersFrom_fallback_irrel noise _ _ _ 0 _ _ _ hlen
  unfold GenerateAsteroid FinalVertices FinalStats
  rw [hnv, hcr, hls]

/-- Witness for C1 (amended) at a concrete configuration and two different
engine oracles. -/
theorem C1_amended_determinism_witness :
    GenerateAsteroid ⟨0, 2, 2, 1, 0, [], 1, false⟩ ⟨0, 0, fun _ => 0⟩ (fun _ => 0)
      = GenerateAsteroid ⟨0, 2, 2, 1, 0, [], 1, false⟩ ⟨1, 1/2, fun _ => 1⟩
          (fun _ => 0) :=
  C1_amended_determinism ⟨0, 2, 2, 1, 0, [], 1, false⟩ ⟨0, 0, fun _ => 0⟩
    ⟨1, 1/2, fun _ => 1⟩ (fun _ => 0) (by norm_num) (by simp) rfl

/-- Counterexample to C1 as stated: with explicit non-negative seeds but a
non-degenerate radius range (`[1, 2]`), two independent runs differ, because
the radius is drawn from the engine's global unseeded generator. -/
theorem C1_counterexample :
    GenerateAsteroid ⟨0, 1, 2, 1, 0, [], 1, false⟩ ⟨0, 0, fun _ => 0⟩ (fun _ => 0)
      ≠ GenerateAsteroid ⟨0, 1, 2, 1, 0, [], 1, false⟩ ⟨0, 1/2, fun _ => 0⟩
          (fun _ => 0) := by
  intro h
  have h2 := congrArg (fun g : GenOutput => g.stats.radius) h
  simp only [GenerateAsteroid, FinalStats, CalculateStats, ChosenRadius] at h2
  norm_num at h2

/-! ## C2: noise displacement is radial and undone by re-normalization -/

theorem abs_LayerDisplacement_le (noise : FVector → ℝ) (layer : FNoiseLayer)
    (a b c : ℝ) {m : ℝ} (hm : 0 ≤ m) (v : FVector) :
    |LayerDisplacement noise layer a b c m v| ≤ m := by
  simp only [LayerDisplacement]
  exact abs_clampR_le _ _ hm

theorem vertexFold_smul_unit (noise : FVector → ℝ) (fb : ℕ → ℤ) {m : ℝ}
    (hm : 0 ≤ m) :
    ∀ (layers : List FNoiseLayer) (seeds : List ℤ) (i : ℕ) (u : FVector) (c : ℝ),
      FVector.normSq u = 1 → (1e-4 : ℝ) + layers.length * m < c →
      ∃ c2 : ℝ, ApplyVertexFold noise m fb layers seeds i (c • u) = c2 • u
        ∧ (1e-4 : ℝ) < c2
  | [], seeds, i, u, c, hu, hc => by
      refine ⟨c, by simp [ApplyVertexFold], ?_⟩
      simpa using hc
  | L :: rest, seeds, i, u, c, hu, hc => by
      have hexp : ((L :: rest).length : ℝ) * m = rest.length * m + m := by
        simp only [List.length_cons]
        push_cast
        ring
      rw [hexp] at hc
      have hrm : (0 : ℝ) ≤ (rest.length : ℝ) * m := by positivity
      have hc0 : (1e-4 : ℝ) < c := by linarith
      have hnorm := normalize_smul_unit hu hc0
      set d := LayerDisplacement noise L (layerOffsets (headSeed seeds (fb i))).1
        (layerOffsets (headSeed seeds (fb i))).2.1
        (layerOffsets (headSeed seeds (fb i))).2.2 m (c • u) with hd
      have hdlow : -m ≤ d :=
        (abs_le.mp (abs_LayerDisplacement_le noise L _ _ _ hm (c • u))).1
      have hbound2 : (1e-4 : ℝ) + rest.length * m < c + d := by linarith
      obtain ⟨c2, heq, hgt⟩ :=
        vertexFold_smul_unit noise fb hm rest seeds.tail (i + 1) u (c + d) hu hbound2
      refine ⟨c2, ?_, hgt⟩
      simp only [ApplyVertexFold]
      have hstep : ApplyLayerVertex noise L (layerOffsets (headSeed seeds (fb i))).1
          (layerOffsets (headSeed seeds (fb i))).2.1
          (layerOffsets (headSeed seeds (fb i))).2.2 m (c • u) = (c + d) • u := by
        unfold ApplyLayerVertex
        rw [hnorm, ← hd, smul_add_smul_vec]
      rw [hstep]
      exact heq

theorem applyLayersFrom_eq_map (noise : FVector → ℝ) (m : ℝ) (fb : ℕ → ℤ) :
    ∀ (layers : List FNoiseLayer) (seeds : List ℤ) (i : ℕ) (verts : List FVector),
      ApplyLayersFrom noise m fb layers seeds i verts
        = verts.map (ApplyVertexFold noise m fb layers seeds i)
  | [], seeds, i, verts => by
      simp [ApplyLayersFrom, ApplyVertexFold]
  | L :: rest, seeds, i, verts => by
      simp only [ApplyLayersFrom]
      rw [applyLayersFrom_eq_map noise m fb rest seeds.tail (i + 1), List.map_map]
      rfl

theorem map_map_restore :
    ∀ (l : List FVector) (f g : FVector → FVector),
      (∀ v ∈ l, g (f v) = v) → (l.map f).map g = l
  | [], _, _, _ => rfl
  | v :: rest, f, g, h => by
      simp only [List.map_cons, List.cons.injEq]
      exact ⟨h v (by simp), map_map_restore rest f g (fun w hw => h w (by simp [hw]))⟩

theorem NormalizeVertices_of_units :
    ∀ (l : List FVector), (∀ v ∈ l, FVector.normSq v = 1) → NormalizeVertices l = l
  | [], _ => rfl
  | v :: rest, h => by
      unfold NormalizeVertices
      simp only [List.map_cons, List.cons.injEq]
      exact ⟨normalize_of_unit (h v (by simp)),
             NormalizeVertices_of_units rest (fun w hw => h w (by simp [hw]))⟩

/-- C2 (amended): each per-vertex update rescales the vertex along its own
direction, so when every intermediate magnitude stays above the `Normalize`
tolerance — guaranteed when `1e-4 + (number of layers) * maxDisplacementFraction
< 1` — the orchestrator's `NormalizeVertices` call after all layers restores
every unit vertex exactly, and the result is per-vertex identical to the run
with zero noise layers. -/
theorem C2_amended_renormalize_restores (noise : FVector → ℝ)
    (layers : List FNoiseLayer) (seeds : List ℤ) (m : ℝ) (fb : ℕ → ℤ)
    (verts : List FVector) (hm : 0 ≤ m)
    (hunit : ∀ v ∈ verts, FVector.normSq v = 1)
    (hbound : (1e-4 : ℝ) + layers.length * m < 1) :
    NormalizeVertices (ApplyNoiseLayers noise layers verts seeds m fb) = verts
      ∧ NormalizeVertices (ApplyNoiseLayers noise [] verts seeds m fb) = verts := by
  refine ⟨?_, NormalizeVertices_of_units verts hunit⟩
  unfold ApplyNoiseLayers
  rw [applyLayersFrom_eq_map]
  unfold NormalizeVertices
  apply map_map_restore
  intro v hv
  obtain ⟨c2, heq, hgt⟩ :=
    vertexFold_smul_unit noise fb hm layers seeds 0 v 1 (hunit v hv) hbound
  rw [one_smul_vec] at heq
  rw [heq]
  exact normalize_smul_unit (hunit v hv) hgt

/-- Witness for C2 (amended): one layer, clamp bound `1/4`, single unit
vertex. -/
theorem C2_amended_renormalize_restores_witness :
    NormalizeVertices (ApplyNoiseLayers (fun _ => 0) [⟨1, 1, 0⟩] [⟨1, 0, 0⟩] [0]
        (1/4) (fun _ => 0)) = [⟨1, 0, 0⟩]
      ∧ NormalizeVertices (ApplyNoiseLayers (fun _ => 0) [] [⟨1, 0, 0⟩] [0]
        (1/4) (fun _ => 0)) = [⟨1, 0, 0⟩] :=
  C2_amended_renormalize_restores (fun _ => 0) [⟨1, 1, 0⟩] [0] (1/4) (fun _ => 0)
    [⟨1, 0, 0⟩] (by norm_num)
    (by
      intro v hv
      simp only [List.mem_singleton] at hv
      subst hv
      simp [FVector.normSq, FVector.dot])
    (by
      simp only [List.length_singleton]
      norm_num)

/-- Counterexample to C2 as stated: the proviso `d > -|V|` (which holds here:
the clamped displacement is `-99999/100000 > -1`, and a single layer's clamp
bound `99999/100000` is below 1) does not make the re-normalized geometry
identical to the zero-noise geometry — the displaced vertex's squared
magnitude falls to `1e-10`, below the `Normalize` tolerance, so
`NormalizeVertices` leaves it shrunken. -/
theorem C2_counterexample :
    -FVector.norm ⟨1, 0, 0⟩
        < LayerDisplacement (fun _ => 1) ⟨1, -(99999/50000 : ℝ), 5⟩
            (layerOffsets 5).1 (layerOffsets 5).2.1 (layerOffsets 5).2.2
            (99999/100000) ⟨1, 0, 0⟩
      ∧ NormalizeVertices (ApplyNoiseLayers (fun _ => 1)
            [⟨1, -(99999/50000 : ℝ), 5⟩] [⟨1, 0, 0⟩] [5] (99999/100000)
            (fun _ => 0))
        ≠ [⟨1, 0, 0⟩] := by
  have hunit : FVector.normSq ⟨1, 0, 0⟩ = 1 := by
    simp [FVector.normSq, FVector.dot]
  have hnorm1 : FVector.normalize ⟨1, 0, 0⟩ = (⟨1, 0, 0⟩ : FVector) :=
    normalize_of_unit hunit
  have hd : ∀ a b c : ℝ,
      LayerDisplacement (fun _ => 1) ⟨1, -(99999/50000 : ℝ), 5⟩ a b c
        (99999/100000) ⟨1, 0, 0⟩ = -(99999/100000 : ℝ) := by
    intro a b c
    simp only [LayerDisplacement, hnorm1]
    have hdot : FVector.dot ((-(99999/50000 : ℝ) * 0.5) • ⟨1, 1, 1⟩) ⟨1, 0, 0⟩
        = -(99999/100000 : ℝ) := by
      simp [FVector.dot]
      norm_num
    rw [hdot]
    unfold clampR
    rw [if_neg (lt_irrefl _), if_pos (by norm_num)]
  constructor
  · rw [hd]
    unfold FVector.norm
    rw [hunit, Real.sqrt_one]
    norm_num
  · have happ : ApplyNoiseLayers (fun _ => 1) [⟨1, -(99999/50000 : ℝ), 5⟩]
        [⟨1, 0, 0⟩] [5] (99999/100000) (fun _ => 0)
        = [⟨1/100000, 0, 0⟩] := by
      simp only [ApplyNoiseLayers, ApplyLayersFrom, headSeed, List.tail_cons,
        List.map_cons, List.map_nil]
      simp only [ApplyLayerVertex, hd, hnorm1]
      congr 1
      ext <;> simp
      norm_num
    rw [happ]
    have hne : ¬ FVector.SMALL_NUMBER < FVector.normSq ⟨1/100000, 0, 0⟩ := by
      simp [FVector.normSq, FVector.dot, FVector.SMALL_NUMBER]
      norm_num
    unfold NormalizeVertices FVector.normalize
    simp only [List.map_cons, List.map_nil, if_neg hne]
    intro h
    rw [List.cons.injEq] at h
    have hx := congrArg FVector.x h.1
    norm_num at hx

/-! ## C6: final vertex magnitudes equal the chosen radius -/

theorem base_normSq_large : ∀ v ∈ baseVertices,
    FVector.SMALL_NUMBER < FVector.normSq v := by
  intro v hv
  have ht := mul_self_nonneg icoT
  simp only [baseVertices, List.mem_cons, List.not_mem_nil, or_false] at hv
  rcases hv with h|h|h|h|h|h|h|h|h|h|h|h <;> subst h <;>
    · simp only [FVector.normSq, FVector.dot, FVector.SMALL_NUMBER]
      norm_num
      nlinarith

theorem doubleNormalized_unit :
    ∀ v ∈ NormalizeVertices (NormalizeVertices baseVertices),
      FVector.normSq v = 1 := by
  intro v hv
  simp only [NormalizeVertices, List.map_map, List.mem_map] at hv
  obtain ⟨b, hb, rfl⟩ := hv
  have h1 := normSq_normalize (base_normSq_large b hb)
  have h2 : FVector.SMALL_NUMBER < FVector.normSq (FVector.normalize b) := by
    rw [h1]
    norm_num [FVector.SMALL_NUMBER]
  simp only [Function.comp]
  exact normSq_normalize h2

/-- C6 (amended): provided the chosen radius is non-negative and every
post-noise vertex keeps a squared magnitude above the `Normalize` tolerance,
every vertex of the final geometry handed to mesh/collision upload has
magnitude exactly the stored radius. -/
theorem C6_amended_final_magnitude (cfg : FGenerationConfig) (o : EngineOracle)
    (noise : FVector → ℝ) (i : ℕ) (hrad : 0 ≤ ChosenRadius cfg o)
    (htol : ∀ w ∈ NoisedVertices cfg o noise,
      FVector.SMALL_NUMBER < FVector.normSq w)
    (hi : i < ((GenerateAsteroid cfg o noise).vertices).length) :
    FVector.norm (((GenerateAsteroid cfg o noise).vertices).getD i 0)
      = (GenerateAsteroid cfg o noise).stats.radius := by
  have hsr : (GenerateAsteroid cfg o noise).stats.radius = ChosenRadius cfg o := by
    simp [GenerateAsteroid, FinalStats, CalculateStats]
  rw [hsr, List.getD_eq_getElem _ _ hi]
  have hmem : ((GenerateAsteroid cfg o noise).vertices)[i]
      ∈ (NormalizeVertices (NoisedVertices cfg o noise)).map
          (fun v => ChosenRadius cfg o • v) :=
    List.getElem_mem hi
  simp only [NormalizeVertices, List.map_map, List.mem_map] at hmem
  obtain ⟨w, hw, heq⟩ := hmem
  rw [← heq]
  simp only [Function.comp]
  rw [norm_smul_vec, norm_normalize (htol w hw), mul_one, abs_of_nonneg hrad]

/-- Witness for C6 (amended): no noise layers, unit radius, subdivision 0. -/
theorem C6_amended_final_magnitude_witness :
    FVector.norm (((GenerateAsteroid ⟨0, 1, 1, 1, 0, [], 1, false⟩
          ⟨0, 0, fun _ => 0⟩ (fun _ => 0)).vertices).getD 0 0)
      = (GenerateAsteroid ⟨0, 1, 1, 1, 0, [], 1, false⟩ ⟨0, 0, fun _ => 0⟩
          (fun _ => 0)).stats.radius :=
  C6_amended_final_magnitude ⟨0, 1, 1, 1, 0, [], 1, false⟩ ⟨0, 0, fun _ => 0⟩
    (fun _ => 0) 0
    (by norm_num [ChosenRadius])
    (by
      intro w hw
      have h1 : FVector.normSq w = 1 := doubleNormalized_unit w hw
      rw [h1]
      norm_num [FVector.SMALL_NUMBER])
    (by
      simp [GenerateAsteroid, FinalVertices, NormalizeVertices, NoisedVertices,
        ApplyNoiseLayers, ApplyLayersFrom, BuildBaseIcosphere, buildLoop,
        baseVertices])

theorem sqrt5_mul_self : Real.sqrt 5 * Real.sqrt 5 = 5 :=
  Real.mul_self_sqrt (by norm_num)

theorem icoT_mul_self : icoT * icoT = (3 + Real.sqrt 5) / 2 := by
  unfold icoT
  field_simp
  linear_combination 2 * sqrt5_mul_self

theorem normSq_b0 : FVector.normSq ⟨-1, icoT, 0⟩ = (5 + Real.sqrt 5) / 2 := by
  show (-1 : ℝ) * -1 + icoT * icoT + 0 * 0 = (5 + Real.sqrt 5) / 2
  rw [icoT_mul_self]
  ring

theorem small_lt_normSq_b0 :
    FVector.SMALL_NUMBER < FVector.normSq ⟨-1, icoT, 0⟩ := by
  rw [normSq_b0]
  have h := Real.sqrt_nonneg 5
  norm_num [FVector.SMALL_NUMBER]
  linarith

theorem c6S_pos : 0 < c6S := by
  unfold c6S
  have h := Real.sqrt_nonneg 5
  apply Real.sqrt_pos.mpr
  linarith

theorem c6S_mul_self : c6S * c6S = (5 + Real.sqrt 5) / 2 := by
  unfold c6S
  exact Real.mul_self_sqrt (by have h := Real.sqrt_nonneg 5; linarith)

theorem normalize_b0 :
    FVector.normalize ⟨-1, icoT, 0⟩ = c6S⁻¹ • ⟨-1, icoT, 0⟩ := by
  unfold FVector.normalize
  rw [if_pos small_lt_normSq_b0, normSq_b0]
  rfl

theorem v0_unit : FVector.normSq (c6S⁻¹ • (⟨-1, icoT, 0⟩ : FVector)) = 1 := by
  rw [normSq_smul, normSq_b0, sq, ← mul_inv, c6S_mul_self]
  rw [inv_mul_cancel₀]
  have h := Real.sqrt_nonneg 5
  intro hc
  rw [div_eq_zero_iff] at hc
  rcases hc with hc | hc
  · linarith
  · norm_num at hc

theorem normalize_zero_vec : FVector.normalize 0 = 0 := by
  unfold FVector.normalize
  rw [if_neg]
  norm_num [FVector.normSq, FVector.dot, FVector.SMALL_NUMBER]

theorem c6_displacement : ∀ A B C : ℝ, A = c6Pt.x → B = c6Pt.y → C = c6Pt.z →
    LayerDisplacement c6Noise ⟨0, 1, 7⟩ A B C 1 (c6S⁻¹ • ⟨-1, icoT, 0⟩) = -1 := by
  intro A B C hA hB hC
  subst hA
  subst hB
  subst hC
  simp only [LayerDisplacement]
  have hp0 : ((⟨0, 1, 7⟩ : FNoiseLayer).scale • (c6S⁻¹ • ⟨-1, icoT, 0⟩ : FVector)
      + ⟨c6Pt.x, c6Pt.y, c6Pt.z⟩) + (⟨0, 0, 0⟩ : FVector) = c6Pt := by
    ext <;> simp
  have hp1 : ((⟨0, 1, 7⟩ : FNoiseLayer).scale • (c6S⁻¹ • ⟨-1, icoT, 0⟩ : FVector)
      + ⟨c6Pt.x, c6Pt.y, c6Pt.z⟩) + (⟨13.13, 37.37, 7.73⟩ : FVector) ≠ c6Pt := by
    intro heq
    have hx := congrArg FVector.x heq
    simp at hx
    norm_num at hx
  have hp2 : ((⟨0, 1, 7⟩ : FNoiseLayer).scale • (c6S⁻¹ • ⟨-1, icoT, 0⟩ : FVector)
      + ⟨c6Pt.x, c6Pt.y, c6Pt.z⟩) + (⟨97.97, 21.21, 55.55⟩ : FVector) ≠ c6Pt := by
    intro heq
    have hx := congrArg FVector.x heq
    simp at hx
    norm_num at hx
  have hn0 : c6Noise (((⟨0, 1, 7⟩ : FNoiseLayer).scale
      • (c6S⁻¹ • ⟨-1, icoT, 0⟩ : FVector) + ⟨c6Pt.x, c6Pt.y, c6Pt.z⟩)
      + (⟨0, 0, 0⟩ : FVector)) = 2 * c6S := by
    rw [hp0]
    simp [c6Noise]
  have hn1 : c6Noise (((⟨0, 1, 7⟩ : FNoiseLayer).scale
      • (c6S⁻¹ • ⟨-1, icoT, 0⟩ : FVector) + ⟨c6Pt.x, c6Pt.y, c6Pt.z⟩)
      + (⟨13.13, 37.37, 7.73⟩ : FVector)) = 0 := by
    unfold c6Noise
    exact if_neg hp1
  have hn2 : c6Noise (((⟨0, 1, 7⟩ : FNoiseLayer).scale
      • (c6S⁻¹ • ⟨-1, icoT, 0⟩ : FVector) + ⟨c6Pt.x, c6Pt.y, c6Pt.z⟩)
      + (⟨97.97, 21.21, 55.55⟩ : FVector)) = 0 := by
    unfold c6Noise
    exact if_neg hp2
  rw [hn0, hn1, hn2, normalize_of_unit v0_unit]
  have hdot : FVector.dot (((⟨0, 1, 7⟩ : FNoiseLayer).intensity * 0.5)
      • ⟨2 * c6S, 0, 0⟩) (c6S⁻¹ • ⟨-1, icoT, 0⟩) = -1 := by
    simp only [FVector.dot, FVector.smul_x, FVector.smul_y, FVector.smul_z]
    field_simp
    ring_nf
    rw [mul_comm c6S c6S⁻¹, inv_mul_cancel₀ c6S_pos.ne']
  rw [hdot]
  unfold clampR
  rw [if_neg (lt_irrefl _), if_pos (by norm_num)]

theorem v_add_neg_one_smul (v : FVector) : v + (-1 : ℝ) • v = 0 := by
  ext <;> simp

/-- Counterexample to C6 as stated: the final magnitudes do NOT equal the
chosen radius "regardless of the accumulated displacement magnitudes".  With
one noise layer whose sampled offset exactly cancels the first icosahedron
vertex (clamped displacement `-1` against unit magnitude), that vertex
collapses to the zero vector, survives `NormalizeVertices` unchanged (it is
below the tolerance), and is uploaded with magnitude `0` while the stored
radius is `100`. -/
theorem C6_counterexample :
    ¬ (∀ i : ℕ, i < ((GenerateAsteroid c6Cfg c6Oracle c6Noise).vertices).length →
        FVector.norm (((GenerateAsteroid c6Cfg c6Oracle c6Noise).vertices).getD i 0)
          = (GenerateAsteroid c6Cfg c6Oracle c6Noise).stats.radius) := by
  intro hall
  have hnn : FVector.normalize (FVector.normalize ⟨-1, icoT, 0⟩)
      = c6S⁻¹ • ⟨-1, icoT, 0⟩ := by
    rw [normalize_b0]
    exact normalize_of_unit v0_unit
  have hcollapse : ApplyLayerVertex c6Noise ⟨0, 1, 7⟩ (layerOffsets 7).1
      (layerOffsets 7).2.1 (layerOffsets 7).2.2 1
      (FVector.normalize (FVector.normalize ⟨-1, icoT, 0⟩)) = 0 := by
    rw [hnn]
    unfold ApplyLayerVertex
    rw [normalize_of_unit v0_unit,
      c6_displacement (layerOffsets 7).1 (layerOffsets 7).2.1 (layerOffsets 7).2.2
        rfl rfl rfl]
    exact v_add_neg_one_smul _
  have hseeds : LayerSeedsOf c6Cfg c6Oracle = [7] := by
    simp [LayerSeedsOf, ResolveLayerSeeds, c6Cfg]
  have hbuild1 : (BuildBaseIcosphere c6Cfg.subdivisions).1
      = NormalizeVertices (NormalizeVertices baseVertices) := by
    simp [BuildBaseIcosphere, buildLoop, c6Cfg]
  have hnoised : NoisedVertices c6Cfg c6Oracle c6Noise
      = (NormalizeVertices (NormalizeVertices baseVertices)).map
          (ApplyLayerVertex c6Noise ⟨0, 1, 7⟩ (layerOffsets 7).1
            (layerOffsets 7).2.1 (layerOffsets 7).2.2 1) := by
    unfold NoisedVertices ApplyNoiseLayers
    rw [hseeds, hbuild1]
    simp [ApplyLayersFrom, headSeed, c6Cfg]
  have hhead : ((GenerateAsteroid c6Cfg c6Oracle c6Noise).vertices).getD 0 0 = 0 := by
    show (FinalVertices c6Cfg c6Oracle c6Noise).getD 0 0 = 0
    unfold FinalVertices
    rw [hnoised]
    unfold NormalizeVertices
    simp only [baseVertices, List.map_cons, List.getD_cons_zero]
    rw [hcollapse, normalize_zero_vec]
    ext <;> simp
  have hrad100 : (GenerateAsteroid c6Cfg c6Oracle c6Noise).stats.radius = 100 := by
    simp [GenerateAsteroid, FinalStats, CalculateStats, ChosenRadius, c6Cfg, c6Oracle]
  have hlen : 0 < ((GenerateAsteroid c6Cfg c6Oracle c6Noise).vertices).length := by
    show 0 < (FinalVertices c6Cfg c6Oracle c6Noise).length
    unfold FinalVertices
    rw [hnoised]
    unfold NormalizeVertices
    simp [baseVertices]
  have hz := hall 0 hlen
  rw [hhead, hrad100] at hz
  unfold FVector.norm at hz
  rw [show FVector.normSq 0 = 0 from by norm_num [FVector.normSq, FVector.dot],
    Real.sqrt_zero] at hz
  norm_num at hz
